import Mathlib

/-!
Verification of the `ddrenamer` frontend (`src/App.tsx`) drag-and-drop
dispatch logic, and of the rename engine's documented transformer
behaviour.

The frontend's `onDragDropEvent` handler is embedded shallowly:
* React state that the handler reads/writes (`configRef` snapshot,
  `logs`, `currentManualCount`) is explicit state (`Config`, `AppState`).
* The Tauri `invoke("handle_rename", ...)` call is an abstract `Oracle`:
  a function from path and command to either a thrown error message
  (`Except.error`) or a result record (`Except.ok`).
* The per-drop loop `for (let i = 0; i < paths.length; i++) ...` becomes
  the structural recursion `dropLoop`.  Besides the `newLogs` list built
  by `unshift` (modelled by appending later entries in front) and the
  final `currentSeq`, `dropLoop` also returns the trace of engine
  invocations (path, the local `num`, and the command object), so that
  theorems can speak about what is dispatched and in which order.
* `LogEntry.id` (a Date-based counter) and `timestamp`
  (`toLocaleTimeString`) are presentation-only nondeterminism and are
  omitted from the embedded `LogEntry`.
-/

namespace DDRenamer

/-- The `"start" | "end"` position strings of the config
(`serialPosition`, `addPos`, `trimPos`).  `end` is a Lean keyword, so the
second constructor is `end_`. -/
inductive Pos where
  | start
  | end_
deriving DecidableEq

/-- The mode union
`type RenameMode = "fixed" | "serial" | "replace" | "add" | "trim" | "extension"`. -/
inductive RenameMode where
  | fixed
  | serial
  | replace
  | add
  | trim
  | extension
deriving DecidableEq

/-- The `configRef.current` snapshot of all config states read by the
drop handler (App.tsx lines 76-97).  The numeric fields are `Nat`: the
UI only steps them with `Math.max(0, x - 1)` / `x + 1`. -/
structure Config where
  activeTab : RenameMode
  fixedName : String
  keepExt : Bool
  serialText : String
  serialPosition : Pos
  serialStart : Nat
  serialPad : Nat
  removeOriginal : Bool
  manualIncrement : Bool
  currentManualCount : Nat
  replaceFrom : String
  replaceTo : String
  useRegex : Bool
  addText : String
  addPos : Pos
  trimCount : Nat
  trimPos : Pos
  newExtension : String
deriving DecidableEq

/-- The `cmd` object built by the `switch (activeTab)` in the drop
handler, one constructor per mode with that mode's config record.
`from` is a Lean keyword, hence `fromText` / `toText`. -/
inductive Cmd where
  | fixed (name : String) (keep_ext : Bool)
  | serial (pre suf : String) (number : Nat) (pad : Nat)
      (keep_ext : Bool) (keep_original : Bool)
  | replace (fromText toText : String) (use_regex : Bool)
  | add (text : String) (position : Pos)
  | trim (count : Nat) (position : Pos)
  | extension (new_ext : String)
deriving DecidableEq

/-- The `switch (activeTab)` of App.tsx lines 147-190: builds the
command sent to `invoke("handle_rename", ...)` for the current config
and the sequence number `num` of this iteration. -/
def buildCmd (cfg : Config) (num : Nat) : Cmd :=
  match cfg.activeTab with
  | RenameMode.fixed => Cmd.fixed cfg.fixedName cfg.keepExt
  | RenameMode.serial =>
      Cmd.serial
        (if cfg.serialPosition = Pos.start then cfg.serialText else "")
        (if cfg.serialPosition = Pos.end_ then cfg.serialText else "")
        num cfg.serialPad cfg.keepExt (!cfg.removeOriginal)
  | RenameMode.replace => Cmd.replace cfg.replaceFrom cfg.replaceTo cfg.useRegex
  | RenameMode.add => Cmd.add cfg.addText cfg.addPos
  | RenameMode.trim => Cmd.trim cfg.trimCount cfg.trimPos
  | RenameMode.extension => Cmd.extension cfg.newExtension

/-- The result record returned by `invoke("handle_rename", ...)`:
`{ path: string; status: string; new_name?: string }`. -/
structure InvokeResult where
  path : String
  status : String
  new_name : Option String
deriving DecidableEq

/-- The rename engine as seen from the frontend: a call either returns a
result record or throws a message (`Except.error`). -/
abbrev Oracle := String → Cmd → Except String InvokeResult

/-- A log entry as the handler builds it (`id` and `timestamp` are
presentation-only and omitted, see the file comment). -/
structure LogEntry where
  path : String
  status : String
  success : Bool
deriving DecidableEq

/-- The entry pushed by `newLogs.unshift(...)` for one processed path:
the `try` branch's record on a returned result, the `catch` branch's
record on a thrown error (App.tsx lines 192-218). -/
def mkLogEntry (filePath : String) (r : Except String InvokeResult) : LogEntry :=
  match r with
  | Except.ok res =>
      { path := res.path
        status :=
          if res.status == "Success" then
            match res.new_name with
            | some n => "-> " ++ n
            | none => "成功"
          else res.status
        success := res.status == "Success" }
  | Except.error msg =>
      { path := filePath
        status := "Error: " ++ msg
        success := false }

/-- One engine invocation issued by the drop loop: the dropped path, the
local `num` of that iteration, and the command object passed to
`invoke`. -/
structure Invocation where
  path : String
  num : Nat
  cmd : Cmd
deriving DecidableEq

/-- The `for` loop of the drop handler (App.tsx lines 140-219), with
loop index `i` and the mutable `currentSeq`.  Returns the `newLogs`
list (later entries `unshift`ed in front of earlier ones), the final
`currentSeq`, and the trace of engine invocations in processing
order. -/
def dropLoop (oracle : Oracle) (cfg : Config) :
    List String → Nat → Nat → List LogEntry × Nat × List Invocation
  | [], _, seq => ([], seq, [])
  | filePath :: rest, i, seq =>
      let num := if cfg.manualIncrement then seq else cfg.serialStart + i
      let seq1 := if cfg.manualIncrement then seq + 1 else seq
      let cmd := buildCmd cfg num
      let entry := mkLogEntry filePath (oracle filePath cmd)
      let r := dropLoop oracle cfg rest (i + 1) seq1
      (r.1 ++ [entry], r.2.1, { path := filePath, num := num, cmd := cmd } :: r.2.2)

/-- The loop's starting sequence value,
`let currentSeq = cfg.manualIncrement ? cfg.currentManualCount : cfg.serialStart`
(App.tsx line 138). -/
def initialSeq (cfg : Config) : Nat :=
  if cfg.manualIncrement then cfg.currentManualCount else cfg.serialStart

/-- The component state the drop handler reads and writes: the config
snapshot and the log list. -/
structure AppState where
  config : Config
  logs : List LogEntry
deriving DecidableEq

/-- The `payload.type === "drop"` branch of the handler: early return on
an empty path list, otherwise run the loop, publish
`[...newLogs, ...prev].slice(0, 50)` and, in manual-increment mode,
`setCurrentManualCount(currentSeq)` (App.tsx lines 130-225). -/
def onDrop (oracle : Oracle) (st : AppState) (paths : List String) : AppState :=
  if paths.length = 0 then st
  else
    let cfg := st.config
    let r := dropLoop oracle cfg paths 0 (initialSeq cfg)
    { config :=
        if cfg.manualIncrement then
          { cfg with currentManualCount := r.2.1 }
        else cfg
      logs := (r.1 ++ st.logs).take 50 }

/-- The engine invocations a drop performs (empty on the early-return
path). -/
def dropInvocations (oracle : Oracle) (st : AppState) (paths : List String) :
    List Invocation :=
  if paths.length = 0 then []
  else (dropLoop oracle st.config paths 0 (initialSeq st.config)).2.2

/-- The `newLogs` list a drop builds (empty on the early-return path). -/
def dropNewLogs (oracle : Oracle) (st : AppState) (paths : List String) :
    List LogEntry :=
  if paths.length = 0 then []
  else (dropLoop oracle st.config paths 0 (initialSeq st.config)).1

/-- The sequence numbers a drop assigns, in processing order. -/
def dropNums (oracle : Oracle) (st : AppState) (paths : List String) : List Nat :=
  (dropInvocations oracle st paths).map Invocation.num

/-- The value of `currentSeq` after the drop loop (its starting value on
the early-return path, where the loop does not run). -/
def dropFinalSeq (oracle : Oracle) (st : AppState) (paths : List String) : Nat :=
  if paths.length = 0 then initialSeq st.config
  else (dropLoop oracle st.config paths 0 (initialSeq st.config)).2.1

/-- The `number` field of a Serial command, `none` for other modes. -/
def serialNumber : Cmd → Option Nat
  | Cmd.serial _ _ n _ _ _ => some n
  | _ => none

/-- The `prefix` and `suffix` fields of a Serial command, `none` for
other modes. -/
def serialAffixes : Cmd → Option (String × String)
  | Cmd.serial pre suf _ _ _ _ => some (pre, suf)
  | _ => none

/-! ### Basic facts about the drop loop -/

/-- After the loop, `currentSeq` has advanced by one per processed path
in manual-increment mode and is untouched otherwise. -/
theorem dropLoop_finalSeq (oracle : Oracle) (cfg : Config) (paths : List String) :
    ∀ i seq, (dropLoop oracle cfg paths i seq).2.1
      = if cfg.manualIncrement then seq + paths.length else seq := by
  induction paths with
  | nil => intro i seq; simp [dropLoop]
  | cons p rest ih =>
      intro i seq
      cases hm : cfg.manualIncrement with
      | false => simp [dropLoop, hm, ih]
      | true => simp [dropLoop, hm, ih]; omega

/-- In manual-increment mode the loop assigns the consecutive numbers
`seq, seq+1, ...`, one per path, in processing order. -/
theorem dropLoop_nums_manual (oracle : Oracle) (cfg : Config)
    (hm : cfg.manualIncrement = true) (paths : List String) :
    ∀ i seq, ((dropLoop oracle cfg paths i seq).2.2).map Invocation.num
      = List.range' seq paths.length := by
  induction paths with
  | nil => intro i seq; simp [dropLoop]
  | cons p rest ih =>
      intro i seq
      simp [dropLoop, hm, ih, List.range'_succ]

/-- Outside manual-increment mode the loop assigns
`serialStart + i, serialStart + i + 1, ...`, one per path, in processing
order. -/
theorem dropLoop_nums_batch (oracle : Oracle) (cfg : Config)
    (hm : cfg.manualIncrement = false) (paths : List String) :
    ∀ i seq, ((dropLoop oracle cfg paths i seq).2.2).map Invocation.num
      = List.range' (cfg.serialStart + i) paths.length := by
  induction paths with
  | nil => intro i seq; simp [dropLoop]
  | cons p rest ih =>
      intro i seq
      simp [dropLoop, hm, ih, List.range'_succ, Nat.add_assoc]

/-- The loop dispatches exactly the dropped paths, in input order. -/
theorem dropLoop_trace_paths (oracle : Oracle) (cfg : Config) (paths : List String) :
    ∀ i seq, ((dropLoop oracle cfg paths i seq).2.2).map Invocation.path = paths := by
  induction paths with
  | nil => intro i seq; simp [dropLoop]
  | cons p rest ih => intro i seq; simp [dropLoop, ih]

/-- Every invocation's command is `buildCmd` of that invocation's
number. -/
theorem dropLoop_trace_cmds (oracle : Oracle) (cfg : Config) (paths : List String) :
    ∀ i seq, ∀ inv ∈ (dropLoop oracle cfg paths i seq).2.2,
      inv.cmd = buildCmd cfg inv.num := by
  induction paths with
  | nil => intro i seq inv h; simp [dropLoop] at h
  | cons p rest ih =>
      intro i seq inv h
      simp only [dropLoop, List.mem_cons] at h
      rcases h with h | h
      · subst h; rfl
      · exact ih (i + 1) _ inv h

/-- The `newLogs` list is the invocation trace mapped through
`mkLogEntry`, reversed: one entry per processed path, later entries
`unshift`ed in front. -/
theorem dropLoop_logs (oracle : Oracle) (cfg : Config) (paths : List String) :
    ∀ i seq, (dropLoop oracle cfg paths i seq).1
      = (((dropLoop oracle cfg paths i seq).2.2).map
          (fun inv => mkLogEntry inv.path (oracle inv.path inv.cmd))).reverse := by
  induction paths with
  | nil => intro i seq; simp [dropLoop]
  | cons p rest ih => intro i seq; simp [dropLoop, ih]

/-- The loop produces exactly one log entry per processed path. -/
theorem dropLoop_logs_length (oracle : Oracle) (cfg : Config) (paths : List String) :
    ∀ i seq, (dropLoop oracle cfg paths i seq).1.length = paths.length := by
  induction paths with
  | nil => intro i seq; simp [dropLoop]
  | cons p rest ih => intro i seq; simp [dropLoop, ih]

/-! ### Facts about `onDrop` and the drop observations -/

/-- In manual-increment mode a nonempty drop sets the stored manual
counter to its old value plus the number of paths, and changes nothing
else in the config. -/
theorem onDrop_config_manual (oracle : Oracle) (st : AppState) (paths : List String)
    (hm : st.config.manualIncrement = true) (h : paths ≠ []) :
    (onDrop oracle st paths).config
      = { st.config with
          currentManualCount := st.config.currentManualCount + paths.length } := by
  have hl : ¬paths.length = 0 := by simpa [List.length_eq_zero] using h
  simp [onDrop, hl, hm, dropLoop_finalSeq, initialSeq]

/-- Outside manual-increment mode a drop leaves the whole config
unchanged. -/
theorem onDrop_config_batch (oracle : Oracle) (st : AppState) (paths : List String)
    (hm : st.config.manualIncrement = false) :
    (onDrop oracle st paths).config = st.config := by
  by_cases hl : paths.length = 0 <;> simp [onDrop, hl, hm]

/-- A drop never changes `manualIncrement`. -/
theorem onDrop_manualIncrement (oracle : Oracle) (st : AppState) (paths : List String) :
    (onDrop oracle st paths).config.manualIncrement = st.config.manualIncrement := by
  by_cases hl : paths.length = 0 <;>
    cases hm : st.config.manualIncrement <;> simp [onDrop, hl, hm]

/-- A drop never changes `serialStart`. -/
theorem onDrop_serialStart (oracle : Oracle) (st : AppState) (paths : List String) :
    (onDrop oracle st paths).config.serialStart = st.config.serialStart := by
  by_cases hl : paths.length = 0 <;>
    cases hm : st.config.manualIncrement <;> simp [onDrop, hl, hm]

/-- The invocation trace of a drop depends on the state only through the
config. -/
theorem dropInvocations_congr (oracle : Oracle) (st st2 : AppState)
    (h : st.config = st2.config) (paths : List String) :
    dropInvocations oracle st paths = dropInvocations oracle st2 paths := by
  simp [dropInvocations, h]

/-- In manual-increment mode the numbers a drop assigns are
`count, count+1, ...`, one per path. -/
theorem dropNums_manual (oracle : Oracle) (st : AppState) (paths : List String)
    (hm : st.config.manualIncrement = true) :
    dropNums oracle st paths
      = List.range' st.config.currentManualCount paths.length := by
  by_cases hl : paths.length = 0
  · have hp : paths = [] := List.length_eq_zero.mp hl
    subst hp
    simp [dropNums, dropInvocations]
  · simp [dropNums, dropInvocations, hl, dropLoop_nums_manual oracle st.config hm,
      initialSeq, hm]

/-! ### The manual-count sync effect and the event-level state machine

App.tsx lines 100-104:
```
useEffect(() => {
  if (!manualIncrement) { setCurrentManualCount(serialStart); }
}, [serialStart, manualIncrement]);
```
The effect re-runs whenever `serialStart` or `manualIncrement` changes,
so the state machine applies it after each setter of those two states.
A drop changes neither dependency, so no sync follows `onDrop`.
-/

/-- The body of the manual-count sync effect. -/
def syncEffect (st : AppState) : AppState :=
  if st.config.manualIncrement then st
  else { st with config := { st.config with currentManualCount := st.config.serialStart } }

/-- The state-changing interactions relevant to the sequence counter:
the `serialStart` stepper, the manual-increment checkbox, and a drop. -/
inductive Event where
  | setStart (n : Nat)
  | setManual (b : Bool)
  | drop (paths : List String)

/-- One interaction step: setters of the sync effect's dependencies are
followed by the effect; a drop is handled by `onDrop`. -/
def step (oracle : Oracle) (st : AppState) : Event → AppState
  | Event.setStart n =>
      syncEffect { st with config := { st.config with serialStart := n } }
  | Event.setManual b =>
      syncEffect { st with config := { st.config with manualIncrement := b } }
  | Event.drop paths => onDrop oracle st paths

/-- The `useState` initial values of App.tsx (lines 38-73), with the
empty initial log list. -/
def initialState : AppState :=
  { config :=
      { activeTab := RenameMode.fixed
        fixedName := ""
        keepExt := true
        serialText := "Img_"
        serialPosition := Pos.start
        serialStart := 1
        serialPad := 3
        removeOriginal := false
        manualIncrement := false
        currentManualCount := 1
        replaceFrom := ""
        replaceTo := ""
        useRegex := false
        addText := ""
        addPos := Pos.end_
        trimCount := 1
        trimPos := Pos.end_
        newExtension := "jpg" }
    logs := [] }

/-- While manual-increment mode is off, the stored manual counter equals
`serialStart`. -/
def syncedWhenDisabled (st : AppState) : Prop :=
  st.config.manualIncrement = false →
    st.config.currentManualCount = st.config.serialStart

/-- Enabling manual-increment mode leaves the counter at `serialStart`,
so manual numbering starts from the configured start value. -/
def enableStartsAtStart (oracle : Oracle) (st : AppState) : Prop :=
  st.config.manualIncrement = false →
    (step oracle st (Event.setManual true)).config.currentManualCount
      = st.config.serialStart

/-- While manual-increment mode is on, changing `serialStart` does not
touch the stored manual counter. -/
def startChangeKeepsCount (oracle : Oracle) (st : AppState) (n : Nat) : Prop :=
  st.config.manualIncrement = true →
    (step oracle st (Event.setStart n)).config.currentManualCount
      = st.config.currentManualCount

/-! ### Sample data for concrete evaluations -/

/-- Initial config with the Serial tab active. -/
def cfgSerial : Config :=
  { initialState.config with activeTab := RenameMode.serial }

/-- Serial tab with manual-increment mode on and the counter at 5. -/
def cfgManual : Config :=
  { cfgSerial with manualIncrement := true, currentManualCount := 5 }

/-- A state on the Serial tab with empty logs. -/
def stSerial : AppState := { config := cfgSerial, logs := [] }

/-- A manual-increment state with empty logs. -/
def stManual : AppState := { config := cfgManual, logs := [] }

/-- An engine that always succeeds, prefixing the path. -/
def okOracle : Oracle := fun p _ =>
  Except.ok { path := p, status := "Success", new_name := some ("new_" ++ p) }

/-- An engine that always throws. -/
def errOracle : Oracle := fun p _ => Except.error ("boom " ++ p)

/-! ### The rename engine's Name Splitter and Mode Transformers

The Rust engine behind `invoke("handle_rename", ...)` is not part of
the repository sources available here; the definitions below are
modelled from the specification (sections 4.1 and 4.2).
-/

/-- Modelled from the spec: helper for the engine's Name Splitter.  On
the reversed character list of a filename, finds the last `.` of the
original name, requiring it not to be the leading character (a leading
dot is not an extension marker); returns the reversed extension and
reversed stem, or `none` when the name has no extension. -/
def splitRevAux : List Char → Option (List Char × List Char)
  | [] => none
  | c :: rest =>
      if c = '.' then
        if rest.isEmpty then none else some ([], rest)
      else
        match splitRevAux rest with
        | none => none
        | some (extRev, stemRev) => some (c :: extRev, stemRev)

/-- Modelled from the spec: the engine's Name Splitter
(`split(full_path) -> FileNameComponents`, section 4.1).  The extension
is the substring after the last `.`; a name with no `.`, or starting
with `.` and containing no further `.`, has an absent extension. -/
def splitName (name : String) : String × Option String :=
  match splitRevAux name.data.reverse with
  | none => (name, none)
  | some (extRev, stemRev) =>
      (String.mk stemRev.reverse, some (String.mk extRev.reverse))

/-- Modelled from the spec: rebuilding a filename from stem and optional
extension (`stem + "." + extension` when the extension is present,
section 3, FileNameComponents invariant). -/
def joinName (stem : String) : Option String → String
  | none => stem
  | some ext => stem ++ "." ++ ext

/-- Modelled from the spec: serial-number rendering, base 10,
left-padded with `0` to `pad` digits minimum, no truncation
(section 4.2, Serial). -/
def zeroPadded (n pad : Nat) : String :=
  let s := toString n
  String.mk (List.replicate (pad - s.length) '0') ++ s

/-- Modelled from the spec: Extension mode strips one leading `.` from
the configured value, so the caller may supply `"jpg"` or `".jpg"`
(section 4.2, Extension). -/
def stripLeadingDot (s : String) : String :=
  if s.startsWith "." then s.drop 1 else s

/-- Modelled from the spec: the candidate new stem each non-Extension
transformer computes from the original stem (section 4.2).  Regular
expression replacement is not expressible here and is abstracted as the
function `rr from to stem`. -/
def candidateStem (rr : String → String → String → String) (cmd : Cmd)
    (stem : String) : String :=
  match cmd with
  | Cmd.fixed name _ => name
  | Cmd.serial pre suf number pad _ keep_original =>
      pre ++ (if keep_original then stem else "") ++ zeroPadded number pad ++ suf
  | Cmd.replace fromText toText use_regex =>
      if use_regex then rr fromText toText stem
      else stem.replace fromText toText
  | Cmd.add text position =>
      match position with
      | Pos.start => text ++ stem
      | Pos.end_ => stem ++ text
  | Cmd.trim count position =>
      match position with
      | Pos.start => stem.drop count
      | Pos.end_ => stem.dropRight count
  | Cmd.extension _ => stem

/-- Modelled from the spec: whether the mode reattaches the original
extension — `keep_ext` for Fixed and Serial, always for Replace, Add and
Trim; Extension mode replaces the extension instead (section 4.2). -/
def keepsExt : Cmd → Bool
  | Cmd.fixed _ keep_ext => keep_ext
  | Cmd.serial _ _ _ _ keep_ext _ => keep_ext
  | Cmd.extension _ => false
  | _ => true

/-- Whether the command is the Extension mode. -/
def isExtensionMode : Cmd → Bool
  | Cmd.extension _ => true
  | _ => false

/-- Modelled from the spec: one mode transformer application — split the
name, compute the candidate stem, and reattach the original extension
when the mode preserves it; Extension mode keeps the stem and replaces
the extension (section 4.2). -/
def transform (rr : String → String → String → String) (cmd : Cmd)
    (name : String) : String :=
  let s := splitName name
  match cmd with
  | Cmd.extension new_ext => joinName s.1 (some (stripLeadingDot new_ext))
  | _ =>
      if keepsExt cmd then joinName (candidateStem rr cmd s.1) s.2
      else candidateStem rr cmd s.1

/-! ### Facts about the Name Splitter -/

/-- On a reversed name of the shape `extRev ++ '.' :: stemRev` with a
dot-free extension and nonempty stem, the splitter helper finds exactly
that decomposition. -/
theorem splitRevAux_append (extRev : List Char) (hnd : '.' ∉ extRev)
    (stemRev : List Char) (hs : stemRev ≠ []) :
    splitRevAux (extRev ++ '.' :: stemRev) = some (extRev, stemRev) := by
  induction extRev with
  | nil =>
      simp only [List.nil_append, splitRevAux, if_pos rfl]
      simp [List.isEmpty_iff, hs]
  | cons c cs ih =>
      simp only [List.mem_cons, not_or] at hnd
      have hc : ¬c = '.' := fun h => hnd.1 h.symm
      simp only [List.cons_append, splitRevAux, if_neg hc]
      rw [show cs.append ('.' :: stemRev) = cs ++ '.' :: stemRev from rfl,
        ih hnd.2]

/-- The extension component the splitter helper returns contains no
dot. -/
theorem splitRevAux_no_dot (rs : List Char) :
    ∀ extRev stemRev, splitRevAux rs = some (extRev, stemRev) → '.' ∉ extRev := by
  induction rs with
  | nil => intro extRev stemRev h; simp [splitRevAux] at h
  | cons c rest ih =>
      intro extRev stemRev h
      by_cases hc : c = '.'
      · simp only [splitRevAux, if_pos hc] at h
        by_cases he : rest.isEmpty
        · simp [he] at h
        · simp only [if_neg he, Option.some.injEq, Prod.mk.injEq] at h
          rw [← h.1]
          simp
      · simp only [splitRevAux, if_neg hc] at h
        cases heq : splitRevAux rest with
        | none => rw [heq] at h; simp at h
        | some pr =>
            rw [heq] at h
            simp only [Option.some.injEq, Prod.mk.injEq] at h
            rw [← h.1]
            simp only [List.mem_cons, not_or]
            exact ⟨fun hd => hc hd.symm, ih pr.1 pr.2 (by rw [heq])⟩

/-- Splitting `stem ++ "." ++ ext` recovers the stem and the extension,
for a nonempty stem and a dot-free extension. -/
theorem splitName_joinName (s e : String) (hs : s ≠ "") (he : '.' ∉ e.data) :
    splitName (joinName s (some e)) = (s, some e) := by
  have hsd : s.data ≠ [] := fun h => hs (String.ext_iff.mpr h)
  have hd : (joinName s (some e)).data = s.data ++ '.' :: e.data := by
    simp [joinName]
  have hrev : (joinName s (some e)).data.reverse
      = e.data.reverse ++ '.' :: s.data.reverse := by
    rw [hd]
    simp
  have haux := splitRevAux_append e.data.reverse (by simpa using he)
    s.data.reverse (by simpa using hsd)
  simp only [splitName, hrev, haux, List.reverse_reverse]

/-- An extension the splitter extracts is dot-free. -/
theorem splitName_ext_no_dot (name s e : String)
    (h : splitName name = (s, some e)) : '.' ∉ e.data := by
  unfold splitName at h
  cases heq : splitRevAux name.data.reverse with
  | none => rw [heq] at h; simp at h
  | some pr =>
      rw [heq] at h
      simp only [Prod.mk.injEq, Option.some.injEq] at h
      have : e.data = pr.1.reverse := by rw [← h.2]
      rw [this]
      simpa using splitRevAux_no_dot name.data.reverse pr.1 pr.2
        (by rw [heq])

/-- On the Serial tab outside manual-increment mode, the `number` fields
of the dispatched Serial commands are `serialStart + i, ...`, one per
path, in processing order. -/
theorem dropLoop_serialNums (oracle : Oracle) (cfg : Config)
    (hm : cfg.manualIncrement = false) (ht : cfg.activeTab = RenameMode.serial)
    (paths : List String) :
    ∀ i seq, ((dropLoop oracle cfg paths i seq).2.2).map
        (fun inv => serialNumber inv.cmd)
      = (List.range' (cfg.serialStart + i) paths.length).map some := by
  induction paths with
  | nil => intro i seq; simp [dropLoop]
  | cons p rest ih =>
      intro i seq
      have hnum : serialNumber (buildCmd cfg (cfg.serialStart + i))
          = some (cfg.serialStart + i) := by
        simp [buildCmd, ht, serialNumber]
      simp [dropLoop, hm, ih, List.range'_succ, hnum, Nat.add_assoc]

/-! ### The claims -/

/-- C10: a drop event whose path list is empty issues no rename
invocation, adds no log entry, and leaves the state — in particular the
manual counter — unchanged. -/
theorem c10_empty_drop_noop (oracle : Oracle) (st : AppState) :
    onDrop oracle st [] = st
    ∧ dropInvocations oracle st [] = []
    ∧ dropNewLogs oracle st [] = [] :=
  ⟨rfl, rfl, rfl⟩

/-- C3: every drop produces exactly one log entry per input path — the
entries are the invocation results mapped through `mkLogEntry`; a
returned result yields an entry carrying that result's status and
success flag, a thrown error yields an error entry for that path; being
a total function of the whole path list, the loop never halts at a
failing path. -/
theorem c3_one_entry_per_path (oracle : Oracle) (st : AppState)
    (paths : List String) :
    (dropNewLogs oracle st paths).length = paths.length
    ∧ (dropInvocations oracle st paths).map Invocation.path = paths
    ∧ dropNewLogs oracle st paths
        = ((dropInvocations oracle st paths).map
            (fun inv => mkLogEntry inv.path (oracle inv.path inv.cmd))).reverse
    ∧ (∀ p msg, mkLogEntry p (Except.error msg)
        = { path := p, status := "Error: " ++ msg, success := false })
    ∧ (∀ p res, (mkLogEntry p (Except.ok res)).success
        = (res.status == "Success")) := by
  refine ⟨?_, ?_, ?_, fun p msg => rfl, fun p res => rfl⟩
  · by_cases hl : paths.length = 0
    · have hp := List.length_eq_zero.mp hl
      subst hp
      simp [dropNewLogs]
    · simp [dropNewLogs, hl, dropLoop_logs_length]
  · by_cases hl : paths.length = 0
    · have hp := List.length_eq_zero.mp hl
      subst hp
      simp [dropInvocations]
    · simp [dropInvocations, hl, dropLoop_trace_paths]
  · by_cases hl : paths.length = 0
    · simp [dropNewLogs, dropInvocations, hl]
    · simp [dropNewLogs, dropInvocations, hl, dropLoop_logs]

/-- C8: on the Serial tab the command's `prefix` carries the configured
text and `suffix` is empty when the position is `start`, and the other
way around when the position is `end`. -/
theorem c8_serial_affixes (cfg : Config) (num : Nat)
    (ht : cfg.activeTab = RenameMode.serial) :
    serialAffixes (buildCmd cfg num)
      = some (if cfg.serialPosition = Pos.start
              then (cfg.serialText, "")
              else ("", cfg.serialText)) := by
  cases hp : cfg.serialPosition <;> simp [buildCmd, ht, serialAffixes, hp]

/-- Witness for C8 at the initial Serial-tab config and number 3. -/
theorem c8_serial_affixes_witness :
    cfgSerial.activeTab = RenameMode.serial
    ∧ serialAffixes (buildCmd cfgSerial 3)
        = some (if cfgSerial.serialPosition = Pos.start
                then (cfgSerial.serialText, "")
                else ("", cfgSerial.serialText)) :=
  ⟨rfl, c8_serial_affixes cfgSerial 3 rfl⟩

/-- C9: after a nonempty drop the retained log list is the first 50
entries of the new entries followed by the previous ones — the newest
50 across drops — and so holds at most 50 entries. -/
theorem c9_log_cap_50 (oracle : Oracle) (st : AppState) (paths : List String)
    (h : paths ≠ []) :
    (onDrop oracle st paths).logs
        = (dropNewLogs oracle st paths ++ st.logs).take 50
    ∧ (onDrop oracle st paths).logs.length ≤ 50 := by
  have hl : ¬paths.length = 0 := by simpa [List.length_eq_zero] using h
  constructor
  · cases hm : st.config.manualIncrement <;> simp [onDrop, dropNewLogs, hl, hm]
  · cases hm : st.config.manualIncrement <;>
      simp [onDrop, hl, hm, List.length_take]

/-- Witness for C9: a one-path drop on the Serial-tab state. -/
theorem c9_log_cap_50_witness :
    (["a"] : List String) ≠ []
    ∧ ((onDrop okOracle stSerial ["a"]).logs
          = (dropNewLogs okOracle stSerial ["a"] ++ stSerial.logs).take 50
      ∧ (onDrop okOracle stSerial ["a"]).logs.length ≤ 50) :=
  ⟨by decide, c9_log_cap_50 okOracle stSerial ["a"] (by decide)⟩

/-- C1: in manual-increment mode a drop of N paths assigns the
consecutive numbers `v, v+1, ..., v+N-1` in drop order (where `v` is the
stored manual counter) and leaves the counter at `v+N`; a subsequent
drop of M paths then consumes `v+N, ..., v+N+M-1` and leaves the counter
at `v+N+M`. -/
theorem c1_manual_batch_numbers (oracle : Oracle) (st : AppState)
    (paths paths2 : List String)
    (hm : st.config.manualIncrement = true) (h1 : paths ≠ []) (h2 : paths2 ≠ []) :
    dropNums oracle st paths
        = List.range' st.config.currentManualCount paths.length
    ∧ (onDrop oracle st paths).config.currentManualCount
        = st.config.currentManualCount + paths.length
    ∧ dropNums oracle (onDrop oracle st paths) paths2
        = List.range' (st.config.currentManualCount + paths.length) paths2.length
    ∧ (onDrop oracle (onDrop oracle st paths) paths2).config.currentManualCount
        = st.config.currentManualCount + paths.length + paths2.length := by
  have hc1 := onDrop_config_manual oracle st paths hm h1
  have hm1 : (onDrop oracle st paths).config.manualIncrement = true := by
    rw [hc1]
    exact hm
  have hcount1 : (onDrop oracle st paths).config.currentManualCount
      = st.config.currentManualCount + paths.length := by rw [hc1]
  have hc2 := onDrop_config_manual oracle (onDrop oracle st paths) paths2 hm1 h2
  refine ⟨dropNums_manual oracle st paths hm, hcount1, ?_, ?_⟩
  · rw [dropNums_manual oracle _ paths2 hm1, hcount1]
  · rw [hc2, hcount1]

/-- Witness for C1: counter 5, a 3-path drop then a 2-path drop. -/
theorem c1_manual_batch_numbers_witness :
    stManual.config.manualIncrement = true
    ∧ (["a", "b", "c"] : List String) ≠ []
    ∧ (["d", "e"] : List String) ≠ []
    ∧ (dropNums okOracle stManual ["a", "b", "c"]
          = List.range' stManual.config.currentManualCount
              (["a", "b", "c"] : List String).length
      ∧ (onDrop okOracle stManual ["a", "b", "c"]).config.currentManualCount
          = stManual.config.currentManualCount
              + (["a", "b", "c"] : List String).length
      ∧ dropNums okOracle (onDrop okOracle stManual ["a", "b", "c"]) ["d", "e"]
          = List.range'
              (stManual.config.currentManualCount
                + (["a", "b", "c"] : List String).length)
              (["d", "e"] : List String).length
      ∧ (onDrop okOracle (onDrop okOracle stManual ["a", "b", "c"])
            ["d", "e"]).config.currentManualCount
          = stManual.config.currentManualCount
              + (["a", "b", "c"] : List String).length
              + (["d", "e"] : List String).length) :=
  ⟨rfl, by decide, by decide,
    c1_manual_batch_numbers okOracle stManual ["a", "b", "c"] ["d", "e"] rfl
      (by decide) (by decide)⟩

/-- C2: on the Serial tab outside manual-increment mode, a drop's
Serial commands carry the numbers `serialStart, serialStart+1, ...` (the
path at index i gets `serialStart + i`), the drop leaves the whole
config unchanged, and a subsequent drop therefore issues the same
invocations it would have issued from the original state — numbering
restarts at `serialStart`. -/
theorem c2_serial_batch_numbers (oracle : Oracle) (st : AppState)
    (paths paths2 : List String)
    (hm : st.config.manualIncrement = false)
    (ht : st.config.activeTab = RenameMode.serial) :
    (dropInvocations oracle st paths).map (fun inv => serialNumber inv.cmd)
        = (List.range' st.config.serialStart paths.length).map some
    ∧ (onDrop oracle st paths).config = st.config
    ∧ dropInvocations oracle (onDrop oracle st paths) paths2
        = dropInvocations oracle st paths2 := by
  have h2 := onDrop_config_batch oracle st paths hm
  refine ⟨?_, h2, dropInvocations_congr oracle _ st h2 paths2⟩
  by_cases hl : paths.length = 0
  · have hp := List.length_eq_zero.mp hl
    subst hp
    simp [dropInvocations]
  · have hn := dropLoop_serialNums oracle st.config hm ht paths 0
      (initialSeq st.config)
    simpa [dropInvocations, hl] using hn

/-- Witness for C2: a 2-path drop then a 1-path drop on the Serial-tab
state. -/
theorem c2_serial_batch_numbers_witness :
    stSerial.config.manualIncrement = false
    ∧ stSerial.config.activeTab = RenameMode.serial
    ∧ ((dropInvocations okOracle stSerial ["x", "y"]).map
          (fun inv => serialNumber inv.cmd)
          = (List.range' stSerial.config.serialStart
              (["x", "y"] : List String).length).map some
      ∧ (onDrop okOracle stSerial ["x", "y"]).config = stSerial.config
      ∧ dropInvocations okOracle (onDrop okOracle stSerial ["x", "y"]) ["z"]
          = dropInvocations okOracle stSerial ["z"]) :=
  ⟨rfl, rfl, c2_serial_batch_numbers okOracle stSerial ["x", "y"] ["z"] rfl rfl⟩

/-- C5: a drop dispatches the paths to the engine strictly in input
order (the invocation trace lists exactly the dropped paths in order),
the new entries surface most-recent-first (reversing the surfaced list
gives the entries in processing order), and the whole batch is placed
ahead of the entries of earlier drops. -/
theorem c5_order_and_surfacing (oracle : Oracle) (st : AppState)
    (paths : List String) (h : paths ≠ []) :
    (dropInvocations oracle st paths).map Invocation.path = paths
    ∧ (dropNewLogs oracle st paths).reverse
        = (dropInvocations oracle st paths).map
            (fun inv => mkLogEntry inv.path (oracle inv.path inv.cmd))
    ∧ (onDrop oracle st paths).logs
        = (dropNewLogs oracle st paths ++ st.logs).take 50 := by
  have hl : ¬paths.length = 0 := by simpa [List.length_eq_zero] using h
  refine ⟨?_, ?_, ?_⟩
  · simp [dropInvocations, hl, dropLoop_trace_paths]
  · simp [dropNewLogs, dropInvocations, hl, dropLoop_logs]
  · cases hm : st.config.manualIncrement <;> simp [onDrop, dropNewLogs, hl, hm]

/-- Witness for C5: a 2-path drop on the Serial-tab state. -/
theorem c5_order_and_surfacing_witness :
    (["a", "b"] : List String) ≠ []
    ∧ ((dropInvocations okOracle stSerial ["a", "b"]).map Invocation.path
          = ["a", "b"]
      ∧ (dropNewLogs okOracle stSerial ["a", "b"]).reverse
          = (dropInvocations okOracle stSerial ["a", "b"]).map
              (fun inv => mkLogEntry inv.path (okOracle inv.path inv.cmd))
      ∧ (onDrop okOracle stSerial ["a", "b"]).logs
          = (dropNewLogs okOracle stSerial ["a", "b"] ++ stSerial.logs).take 50) :=
  ⟨by decide, c5_order_and_surfacing okOracle stSerial ["a", "b"] (by decide)⟩

/-- C7: in manual-increment mode the counter is consumed and advanced
exactly once per path — over any engine behaviour, including throwing or
non-Success results, the assigned numbers rise by exactly 1 per path and
the loop's final counter is the start plus the path count. -/
theorem c7_counter_once_per_path (oracle : Oracle) (st : AppState)
    (paths : List String) (hm : st.config.manualIncrement = true) :
    dropNums oracle st paths
        = List.range' st.config.currentManualCount paths.length
    ∧ dropFinalSeq oracle st paths
        = st.config.currentManualCount + paths.length := by
  refine ⟨dropNums_manual oracle st paths hm, ?_⟩
  by_cases hl : paths.length = 0
  · simp [dropFinalSeq, hl, initialSeq, hm]
  · simp [dropFinalSeq, hl, dropLoop_finalSeq, initialSeq, hm]

/-- Witness for C7: a 2-path drop where every invocation throws still
advances the counter once per path. -/
theorem c7_counter_once_per_path_witness :
    stManual.config.manualIncrement = true
    ∧ (dropNums errOracle stManual ["a", "b"]
          = List.range' stManual.config.currentManualCount
              (["a", "b"] : List String).length
      ∧ dropFinalSeq errOracle stManual ["a", "b"]
          = stManual.config.currentManualCount
              + (["a", "b"] : List String).length) :=
  ⟨rfl, c7_counter_once_per_path errOracle stManual ["a", "b"] rfl⟩

/-- C6: the sync effect keeps the manual counter equal to `serialStart`
whenever manual-increment mode is off (the property holds initially and
is preserved by every interaction step), so enabling manual mode starts
the counter from the configured start value; and while manual mode is
on, changing `serialStart` leaves the counter untouched. -/
theorem c6_manual_count_sync (oracle : Oracle) (st : AppState) (e : Event)
    (n : Nat) (hinv : syncedWhenDisabled st) :
    syncedWhenDisabled initialState
    ∧ syncedWhenDisabled (step oracle st e)
    ∧ enableStartsAtStart oracle st
    ∧ startChangeKeepsCount oracle st n := by
  refine ⟨fun _ => rfl, ?_, ?_, ?_⟩
  · simp only [syncedWhenDisabled]
    cases e with
    | setStart m =>
        cases hm : st.config.manualIncrement with
        | false => intro _; simp [step, syncEffect, hm]
        | true => intro hm'; simp [step, syncEffect, hm] at hm'
    | setManual b =>
        cases b with
        | false => intro _; simp [step, syncEffect]
        | true => intro hm'; simp [step, syncEffect] at hm'
    | drop paths =>
        intro hm'
        have hmEq := onDrop_manualIncrement oracle st paths
        have hm0 : st.config.manualIncrement = false := by
          rw [← hmEq]
          exact hm'
        have hcfg := onDrop_config_batch oracle st paths hm0
        simp only [step, hcfg]
        exact hinv hm0
  · simp only [enableStartsAtStart]
    intro hm0
    simp only [step, syncEffect, if_pos]
    exact hinv hm0
  · simp only [startChangeKeepsCount]
    intro hm1
    simp [step, syncEffect, hm1]

/-- Witness for C6 at the initial state with a `setStart 7` step. -/
theorem c6_manual_count_sync_witness :
    syncedWhenDisabled initialState
    ∧ (syncedWhenDisabled initialState
      ∧ syncedWhenDisabled (step okOracle initialState (Event.setStart 7))
      ∧ enableStartsAtStart okOracle initialState
      ∧ startChangeKeepsCount okOracle initialState 7) :=
  ⟨fun _ => rfl,
    c6_manual_count_sync okOracle initialState (Event.setStart 7) 7 (fun _ => rfl)⟩

/-- C4: every rename mode except Extension preserves the file's
extension — whenever the original name has an extension, the mode's
`keep_ext`/mode semantics say preserve, and the computed stem is
nonempty, the resulting name splits to the same extension as the
original. -/
theorem c4_extension_preserved (rr : String → String → String → String)
    (cmd : Cmd) (name e : String)
    (hmode : isExtensionMode cmd = false)
    (hkeep : keepsExt cmd = true)
    (he : (splitName name).2 = some e)
    (hstem : candidateStem rr cmd (splitName name).1 ≠ "") :
    (splitName (transform rr cmd name)).2 = some e := by
  have hsplit : splitName name = ((splitName name).1, some e) := by rw [← he]
  have hnd : '.' ∉ e.data := splitName_ext_no_dot name (splitName name).1 e hsplit
  have hj := splitName_joinName (candidateStem rr cmd (splitName name).1) e hstem hnd
  cases cmd with
  | extension ne => simp [isExtensionMode] at hmode
  | fixed nm ke => simp only [transform, hkeep, if_true, he, hj]
  | serial pre suf number pad ke ko => simp only [transform, hkeep, if_true, he, hj]
  | replace f t ur => simp only [transform, hkeep, if_true, he, hj]
  | add text position => simp only [transform, hkeep, if_true, he, hj]
  | trim count position => simp only [transform, hkeep, if_true, he, hj]

/-- Witness for C4: Add mode appending "x" to "photo.jpg" keeps the
extension "jpg". -/
theorem c4_extension_preserved_witness :
    isExtensionMode (Cmd.add "x" Pos.end_) = false
    ∧ keepsExt (Cmd.add "x" Pos.end_) = true
    ∧ (splitName "photo.jpg").2 = some "jpg"
    ∧ candidateStem (fun _ _ s => s) (Cmd.add "x" Pos.end_)
        (splitName "photo.jpg").1 ≠ ""
    ∧ (splitName (transform (fun _ _ s => s) (Cmd.add "x" Pos.end_)
        "photo.jpg")).2 = some "jpg" :=
  ⟨rfl, rfl, by decide, by decide,
    c4_extension_preserved (fun _ _ s => s) (Cmd.add "x" Pos.end_) "photo.jpg"
      "jpg" rfl rfl (by decide) (by decide)⟩

end DDRenamer
